import Mathlib

/-!
Verification of the mpds-aiida pipeline scheduler and electronic-structure
analyzer against the natural-language specification.

The definitions below are shallow embeddings of the Python source:
  - `mpds_aiida/properties.py` (band-gap analyzer, export, unit conversion),
  - `mpds_aiida/workflows/crystal.py` (pipeline scheduler and spec builder),
  - `mpds_aiida/workflows/mpds.py` (geometry retrieval with retry).
Band energies are modelled as rationals; Python floats here only undergo
comparison, subtraction, min/max, and multiplication by a fixed constant, all
of which are exact on the inputs considered.
-/

namespace MpdsAiida

/-! ## Analyzer: mpds_aiida/properties.py -/

/-- Binary minimum on ℚ, written out so that it evaluates by kernel reduction. -/
def qmin (a b : ℚ) : ℚ := if a ≤ b then a else b

/-- Binary maximum on ℚ, written out so that it evaluates by kernel reduction. -/
def qmax (a b : ℚ) : ℚ := if a ≤ b then b else a

/-- Embedding of `np.min` on a nonempty 1-d array (in the source all arrays
fed to it are nonempty band rows). -/
def npMin (l : List ℚ) : ℚ := l.foldl qmin (l.headD 0)

/-- Embedding of `np.max` on a nonempty 1-d array. -/
def npMax (l : List ℚ) : ℚ := l.foldl qmax (l.headD 0)

/-- Embedding of `is_conductor(band_stripes)` (properties.py lines 42-47):
scan stripes in order; a stripe with min < 0 and max > 0 means conductor;
stop the scan at the first stripe lying entirely above zero. -/
def is_conductor : List (List ℚ) → Bool
  | [] => false
  | s :: rest =>
    if npMin s < 0 ∧ 0 < npMax s then true
    else if 0 < npMin s then false
    else is_conductor rest

/-- Result of `get_band_gap_info` (properties.py lines 50-73).  The Python
function returns the heterogeneous tuples `(None, None)`, `(False, direct)`
or `(indirect, direct)`, or raises `RuntimeError("...no bands above zero
found!")`; `noBands` models that raise. -/
inductive GapResult where
  | noBands : GapResult
  | nones : GapResult
  | falseDirect (direct : ℚ) : GapResult
  | both (indirect direct : ℚ) : GapResult
deriving DecidableEq, Repr

/-- The `for n in range(1, len(band_stripes))` loop of `get_band_gap_info`,
embedded as a walk carrying the previous stripe: at index `n` the arguments
are `prev = stripes[n-1]` and the remaining stripes `stripes[n:]`.
`bottom = min(stripes[n])`; if positive, compare with `top = max(prev)`; the
elementwise `np.min(stripes[n] - stripes[n-1])` is `npMin (zipWith (· - ·) ...)`.
Exhausting the list is the `else` clause of the `for`, which raises
`RuntimeError` (modelled by `noBands`). -/
def gapScanPairs : List ℚ → List (List ℚ) → GapResult
  | _, [] => GapResult.noBands
  | prev, cur :: rest =>
    if 0 < npMin cur then
      if npMax prev < npMin cur then
        if npMin (List.zipWith (· - ·) cur prev) ≤ npMin cur - npMax prev then
          GapResult.falseDirect (npMin (List.zipWith (· - ·) cur prev))
        else
          GapResult.both (npMin cur - npMax prev) (npMin (List.zipWith (· - ·) cur prev))
      else GapResult.nones
    else gapScanPairs cur rest

/-- Embedding of `get_band_gap_info(band_stripes)`: the loop starts at `n = 1`,
so an empty or one-element stripe list falls straight to the raise. -/
def get_band_gap_info : List (List ℚ) → GapResult
  | [] => GapResult.noBands
  | first :: rest => gapScanPairs first rest

/-- A Python value as it flows through the gap fields of `properties_export`:
`None`, a bool (`False` stands in for a zero indirect gap), or a number. -/
inductive PyVal where
  | none : PyVal
  | bool (b : Bool) : PyVal
  | num (q : ℚ) : PyVal
deriving DecidableEq, Repr

/-- Python exceptions that the modelled slice of properties.py can raise. -/
inductive PyErr where
  | typeError : PyErr
  | runtimeError : PyErr
deriving DecidableEq, Repr

/-- Python 3 semantics of `v > k` for the values that can reach the gap
comparisons: `None > k` raises `TypeError`; `False`/`True` compare as 0/1;
numbers compare numerically. -/
def pyGtNum (v : PyVal) (k : ℚ) : Except PyErr Bool :=
  match v with
  | PyVal.none => Except.error PyErr.typeError
  | PyVal.bool b => Except.ok (decide (k < (if b then (1 : ℚ) else 0)))
  | PyVal.num q => Except.ok (decide (k < q))

/-- The `(indirect_gap, direct_gap)` pair assigned in `properties_export`
(properties.py lines 223-226): `(None, None)` for a conductor, otherwise the
value of `get_band_gap_info`, whose `RuntimeError` propagates. -/
def gapPairE (stripes : List (List ℚ)) : Except PyErr (PyVal × PyVal) :=
  if is_conductor stripes then Except.ok (PyVal.none, PyVal.none)
  else
    match get_band_gap_info stripes with
    | GapResult.noBands => Except.error PyErr.runtimeError
    | GapResult.nones => Except.ok (PyVal.none, PyVal.none)
    | GapResult.falseDirect d => Except.ok (PyVal.bool false, PyVal.num d)
    | GapResult.both i d => Except.ok (PyVal.num i, PyVal.num d)

/-- The gap-determination slice of `properties_export` (properties.py lines
216-258): compute the gap pair, then evaluate
`if direct_gap > 50 or indirect_gap > 50: return None, <message>` with
Python's short-circuit `or`.  A surviving run returns the
`(direct_gap, indirect_gap)` fields of the report dict; `Option.none` models
the early `return None, <message>`.  The later comparisons against 15 and the
metal check only emit warnings and cannot change the returned gap fields. -/
def properties_export_gaps (stripes : List (List ℚ)) :
    Except PyErr (Option (PyVal × PyVal)) := do
  let pair ← gapPairE stripes
  let d50 ← pyGtNum pair.2 50
  let over ← if d50 then pure true else pyGtNum pair.1 50
  if over then pure Option.none else pure (Option.some (pair.2, pair.1))

/-! ## Analyzer lemmas -/

lemma get_band_gap_info_eq_scan (stripes : List (List ℚ)) :
    get_band_gap_info stripes = gapScanPairs (stripes.getD 0 []) (stripes.drop 1) := by
  cases stripes <;> rfl

/-- Stripes at indices `m, ..., n-1` all have `min ≤ 0`, so the scan walks
from index `m` straight to index `n` (`d` is the distance, for induction). -/
lemma gapScan_skip (stripes : List (List ℚ)) (n : Nat) (hn : n < stripes.length) :
    ∀ d m, 1 ≤ m → m + d = n →
      (∀ j, m ≤ j → j < n → ¬ 0 < npMin (stripes.getD j [])) →
      gapScanPairs (stripes.getD (m - 1) []) (stripes.drop m) =
        gapScanPairs (stripes.getD (n - 1) []) (stripes.drop n) := by
  intro d
  induction d with
  | zero =>
    intro m _ hmn _
    simp only [Nat.add_zero] at hmn
    rw [hmn]
  | succ d ih =>
    intro m h1 hmn hskip
    have hmlt : m < n := by omega
    have hm : m < stripes.length := lt_trans hmlt hn
    rw [List.drop_eq_getElem_cons hm]
    have hhead : stripes[m] = stripes.getD m [] := (List.getD_eq_getElem stripes [] hm).symm
    rw [hhead]
    show gapScanPairs _ (stripes.getD m [] :: _) = _
    rw [gapScanPairs]
    rw [if_neg (hskip m le_rfl hmlt)]
    have hsub : m + 1 - 1 = m := by omega
    rw [← hsub]
    exact ih (m + 1) (by omega) (by omega) (fun j hj hjn => hskip j (by omega) hjn)

/-- C2: for a non-conductor band array, with `n` the first band whose minimum
is positive (`n ≥ 1`), `bottom = min(band[n])`, `top = max(band[n-1])` and
`top < bottom`, the gap extraction computes
`indirect_gap = bottom - top` and `direct_gap = min_k (band[n][k] - band[n-1][k])`
and reports `(false-flag, direct_gap)` when `direct_gap ≤ indirect_gap`, else
`(indirect_gap, direct_gap)`; in particular on `[[-2,-1],[1,2]]` the result is
`(indirect_gap = 2, direct_gap = 3)`. -/
theorem C2_gap_extraction (stripes : List (List ℚ)) (n : Nat)
    (_hcond : is_conductor stripes = false)
    (hn : n < stripes.length) (h1 : 1 ≤ n)
    (hfirst : ∀ m, m < n → ¬ 0 < npMin (stripes.getD m []))
    (hbot : 0 < npMin (stripes.getD n []))
    (htop : npMax (stripes.getD (n - 1) []) < npMin (stripes.getD n [])) :
    (get_band_gap_info stripes =
      if npMin (List.zipWith (· - ·) (stripes.getD n []) (stripes.getD (n - 1) []))
          ≤ npMin (stripes.getD n []) - npMax (stripes.getD (n - 1) []) then
        GapResult.falseDirect
          (npMin (List.zipWith (· - ·) (stripes.getD n []) (stripes.getD (n - 1) [])))
      else
        GapResult.both
          (npMin (stripes.getD n []) - npMax (stripes.getD (n - 1) []))
          (npMin (List.zipWith (· - ·) (stripes.getD n []) (stripes.getD (n - 1) []))))
      ∧ get_band_gap_info [[-2, -1], [1, 2]] = GapResult.both 2 3 := by
  constructor
  · rw [get_band_gap_info_eq_scan]
    have hstep := gapScan_skip stripes n hn (n - 1) 1 le_rfl (by omega)
      (fun j hj hjn => hfirst j hjn)
    rw [hstep]
    rw [List.drop_eq_getElem_cons hn]
    have hhead : stripes[n] = stripes.getD n [] := (List.getD_eq_getElem stripes [] hn).symm
    rw [hhead]
    show gapScanPairs _ (stripes.getD n [] :: _) = _
    rw [gapScanPairs]
    rw [if_pos hbot, if_pos htop]
  · norm_num [get_band_gap_info, gapScanPairs, npMin, npMax, qmin, qmax]

/-- Witness for C2 at the spec's own example `[[-2,-1],[1,2]]` with `n = 1`. -/
theorem C2_gap_extraction_witness :
    get_band_gap_info [[-2, -1], [1, 2]] = GapResult.both 2 3 :=
  (C2_gap_extraction [[-2, -1], [1, 2]] 1
    (by norm_num [is_conductor, npMin, npMax, qmin, qmax])
    (by norm_num) le_rfl
    (by
      intro m hm
      have hm0 : m = 0 := by omega
      subst hm0
      norm_num [npMin, qmin, List.getD])
    (by norm_num [npMin, qmin, List.getD])
    (by norm_num [npMin, npMax, qmin, qmax, List.getD])).2

/-- C10: a band array with fewer than two bands makes the gap extraction raise
the fatal "no bands above zero found" error, because the scan for a band with
positive minimum starts at the second band — even when the single band lies
entirely above zero (see the witness). -/
theorem C10_short_band_array (stripes : List (List ℚ))
    (hlen : stripes.length < 2) :
    get_band_gap_info stripes = GapResult.noBands := by
  match stripes with
  | [] => rfl
  | [_] => rfl
  | _ :: _ :: _ =>
    exfalso
    simp only [List.length_cons] at hlen
    omega

/-- Witness for C10: the single band `[1, 2]` lies entirely above zero, yet
the extraction still reports the "no bands above zero found" error. -/
theorem C10_short_band_array_witness :
    get_band_gap_info [[1, 2]] = GapResult.noBands ∧ 0 < npMin [(1 : ℚ), 2] :=
  ⟨C10_short_band_array [[1, 2]] (by norm_num),
   by norm_num [npMin, qmin]⟩

/-- C7 (code bug evaluation): on the conductor band array `[[-1,2],[3,4]]`
(the first band straddles zero), `properties_export` sets both gaps to `None`
and then evaluates `direct_gap > 50`, which in Python 3 raises `TypeError`
instead of returning the report with null gaps. -/
theorem C7_conductor_export_crashes :
    is_conductor [[-1, 2], [3, 4]] = true ∧
      properties_export_gaps [[-1, 2], [3, 4]] = Except.error PyErr.typeError := by
  constructor
  · norm_num [is_conductor, npMin, npMax, qmin, qmax]
  · norm_num [properties_export_gaps, gapPairE, pyGtNum, is_conductor,
      npMin, npMax, qmin, qmax, Except.bind, bind]

/-! ## Unit conversion: `properties_run_direct` (properties.py lines 183-213) -/

/-- The `ase.units.Hartree` constant, 27.211386245988 eV (CODATA 2018). -/
def Hartree : ℚ := 27211386245988 / 1000000000000

/-- Parsed DOSS block of fort.25: one or two spin channels, the energy grid
`e`, and the Fermi energy. -/
structure DosData where
  dosUp : List (List ℚ)
  dosDown : Option (List (List ℚ))
  e : List ℚ
  eFermi : ℚ

/-- Parsed BAND block of fort.25: one or two spin channels and the Fermi
energy. -/
structure BandsData where
  bandsUp : List (List ℚ)
  bandsDown : Option (List (List ℚ))
  eFermi : ℚ

/-- `dos[dos < 0] = 0`: negative DOS artifacts are clipped to zero. -/
def clip0 (x : ℚ) : ℚ := if x < 0 then 0 else x

/-- The DOS mutations of `properties_run_direct` (properties.py lines
183-194): clip negatives and scale by Hartree in each channel, sum a second
spin channel into the first, scale the energy grid and the Fermi energy by
Hartree.  NB the energy grid is only scaled — the Fermi energy is not
subtracted from it. -/
def convertDos (d : DosData) : DosData :=
  let up := d.dosUp.map (fun row => row.map (fun x => clip0 x * Hartree))
  match d.dosDown with
  | none =>
    { dosUp := up, dosDown := none,
      e := d.e.map (fun x => x * Hartree), eFermi := d.eFermi * Hartree }
  | some dn =>
    let dn2 := dn.map (fun row => row.map (fun x => clip0 x * Hartree))
    { dosUp := List.zipWith (List.zipWith (· + ·)) up dn2, dosDown := some dn2,
      e := d.e.map (fun x => x * Hartree), eFermi := d.eFermi * Hartree }

/-- The band-array conversion of `properties_run_direct` (properties.py
lines 205-211): subtract the Fermi energy from every band energy, scale by
Hartree, and `np.hstack` a second spin channel when present. -/
def convertBands (b : BandsData) : List (List ℚ) :=
  match b.bandsDown with
  | none => b.bandsUp.map (fun row => row.map (fun x => (x - b.eFermi) * Hartree))
  | some dn =>
    List.zipWith (· ++ ·)
      (b.bandsUp.map (fun row => row.map (fun x => (x - b.eFermi) * Hartree)))
      (dn.map (fun row => row.map (fun x => (x - b.eFermi) * Hartree)))

/-- DOS data for the C8 counterexample: energy grid `[1]`, Fermi energy 1. -/
def dosC8 : DosData := { dosUp := [[1]], dosDown := none, e := [1], eFermi := 1 }

/-- C8 counterexample: with a DOS energy grid `[1]` and Fermi energy 1, the
code returns the grid `[1 × Hartree]`, not the Fermi-referenced
`[(1 − 1) × Hartree] = [0]` the claim asserts: the Fermi energy is never
subtracted from the DOS energy grid (properties.py line 193). -/
theorem C8_dos_grid_counterexample :
    (convertDos dosC8).e = [Hartree] ∧
    (convertDos dosC8).e ≠ [((1 : ℚ) - 1) * Hartree] := by
  constructor
  · norm_num [convertDos, dosC8]
  · norm_num [convertDos, dosC8, Hartree]

/-- C8 (amended): every band energy is Fermi-shifted and then scaled by
27.211386245988, but every DOS energy-grid point (and the Fermi energy
itself) is only scaled by that constant, without the Fermi shift. -/
theorem C8_unit_conversion_amended (b : BandsData) (d : DosData)
    (hb : b.bandsDown = none) (i j k : Nat) :
    ((convertBands b)[i]?.bind (fun row => row[j]?)) =
      (b.bandsUp[i]?.bind (fun row => row[j]?)).map (fun x => (x - b.eFermi) * Hartree) ∧
    (convertDos d).e[k]? = (d.e[k]?).map (fun x => x * Hartree) ∧
    (convertDos d).eFermi = d.eFermi * Hartree := by
  refine ⟨?_, ?_, ?_⟩
  · rw [convertBands, hb]
    simp only [List.getElem?_map]
    cases b.bandsUp[i]? with
    | none => rfl
    | some row => simp [List.getElem?_map]
  · cases hd : d.dosDown with
    | none => simp [convertDos, hd, List.getElem?_map]
    | some dn => simp [convertDos, hd, List.getElem?_map]
  · cases hd : d.dosDown with
    | none => simp [convertDos, hd]
    | some dn => simp [convertDos, hd]

/-- Band data for the C8 witness: one band energy 2, Fermi energy 1. -/
def bandsC8 : BandsData := { bandsUp := [[2]], bandsDown := none, eFermi := 1 }

/-- Witness for C8 (amended) at one concrete band and DOS sample. -/
theorem C8_unit_conversion_amended_witness :
    ((convertBands bandsC8)[0]?.bind (fun row => row[0]?)) =
      (bandsC8.bandsUp[0]?.bind (fun row => row[0]?)).map
        (fun x => (x - bandsC8.eFermi) * Hartree) ∧
    (convertDos dosC8).e[0]? = (dosC8.e[0]?).map (fun x => x * Hartree) ∧
    (convertDos dosC8).eFermi = dosC8.eFermi * Hartree :=
  C8_unit_conversion_amended bandsC8 dosC8 rfl 0 0 0

/-! ## Scheduler: mpds_aiida/workflows/crystal.py

The `MPDSCrystalWorkChain` outline is
`init_inputs; while has_calc_to_run: if is_needed: (run_calc; check_and_get_results)`.
Below, the ordered calculation list is a `List String` of step ids, the
per-step metadata built by `init_inputs` is a `StepMeta`, and the result a
submitted child workchain reports back is a `CalcOutcome` supplied by an
oracle function.  Returning an AiiDA exit code from an outline step ends the
workchain (modelled by the `aborted*` ends); an uncaught Python exception
ends it as `crashed`. -/

/-- The `after` entry of a step's context metadata (crystal.py lines 135-137):
referenced step id, optional required `finished_ok`, optional required
`exit_status`.  The dict key `calc` is spelled `calcName` here. -/
structure AfterSpec where
  calcName : String
  finishedOk : Option Bool
  exitStatus : Option Int
deriving DecidableEq, Repr

/-- The slice of a step's context metadata read by the scheduling loop:
the optional `need_<id>` flag, the `after` entry, the `optimize_structure`
marker (`some true` for the designated step, `some false` for others when an
optimization step exists, `none` otherwise), and `calc_type`. -/
structure StepMeta where
  needFlag : Option Bool
  after : AfterSpec
  optimizeStructure : Option Bool
  calcType : String
deriving DecidableEq, Repr

/-- What a finished child workchain reports: `is_finished_ok` and the
`exit_status` of its last called subprocess (read by `is_needed`). -/
structure CalcOutcome where
  finishedOk : Bool
  lastCalledExitStatus : Int
deriving DecidableEq, Repr

/-- First-match lookup in an association list; entries prepended later shadow
earlier ones, like attribute assignment on the AiiDA context. -/
def lookupKey {α : Type} : List (String × α) → String → Option α
  | [], _ => none
  | p :: rest, k => if p.1 = k then some p.2 else lookupKey rest k

/-- Embedding of `is_needed` (crystal.py lines 184-209).  The need flag
defaults to true.  When `after.finished_ok` is set, the referenced calc is
fetched from the context: if it never ran, `self.ctx.get(...)` yields `None`
and `.is_finished_ok` raises `AttributeError` (the `Except.error` case).
With a result present: `finished_ok=true` and an ok finish returns true;
`finished_ok=false` returns true exactly on an `exit_status` match; every
other case returns false — overriding the need flag in either direction. -/
def isNeeded (m : StepMeta) (results : List (String × CalcOutcome)) : Except Unit Bool :=
  let needed0 := m.needFlag.getD true
  match m.after.finishedOk with
  | none => Except.ok needed0
  | some fOk =>
    match lookupKey results m.after.calcName with
    | none => Except.error ()
    | some res =>
      if fOk && res.finishedOk then Except.ok true
      else if fOk = false then
        match m.after.exitStatus with
        | some es =>
          if res.lastCalledExitStatus = es then Except.ok true else Except.ok false
        | none => Except.ok false
      else Except.ok false

/-- Per-step status, as in the spec's state machine (RUNNING is transient and
never observable between loop iterations, so it does not appear here). -/
inductive Status where
  | pending | skipped | succeeded | failed
deriving DecidableEq, Repr

/-- How the whole pipeline ends: normally, by one of the registered exit
codes (410 INPUT_ERROR, 411 ERROR_INVALID_CODE, 412 ERROR_OPTIMIZATION_FAILED),
or by an uncaught exception. -/
inductive PipelineEnd where
  | done | abortedInputError | abortedInvalidCode | abortedOptimizationFailed | crashed
deriving DecidableEq, Repr

/-- Mutable context threaded through the scheduling loop: recorded child
results (`to_context`), per-step statuses, and whether
`ctx.optimized_structure` has been set. -/
structure RunState where
  results : List (String × CalcOutcome)
  statuses : List (String × Status)
  optStructure : Bool
deriving DecidableEq, Repr

/-- The context as `init_inputs` leaves it. -/
def initState : RunState := ⟨[], [], false⟩

/-- Embedding of the scheduling loop over the priority-ordered step list
(crystal.py lines 178-287).  Per step: `is_needed` (an `AttributeError`
crashes the workchain); a false result skips the step; otherwise `run_calc`
checks `calc_type` (unknown type ⇒ INPUT_ERROR; properties ⇒
`raise NotImplemented`, a crash; missing crystal code ⇒ ERROR_INVALID_CODE;
a non-optimization step with no optimized structure recorded crashes on
`self.ctx.optimized_structure`), submits, and `check_and_get_results` records
the outcome: a failed designated optimization step returns
ERROR_OPTIMIZATION_FAILED, a successful one records the optimized
structure, and any other failure merely skips exposing outputs. -/
def runSteps (meta : String → StepMeta) (outcome : String → CalcOutcome)
    (haveCrystalCode : Bool) : List String → RunState → RunState × PipelineEnd
  | [], st => (st, PipelineEnd.done)
  | c :: rest, st =>
    match isNeeded (meta c) st.results with
    | Except.error _ => (st, PipelineEnd.crashed)
    | Except.ok false =>
        runSteps meta outcome haveCrystalCode rest
          { st with statuses := (c, Status.skipped) :: st.statuses }
    | Except.ok true =>
        if (meta c).calcType ≠ "crystal" ∧ (meta c).calcType ≠ "properties" then
          (st, PipelineEnd.abortedInputError)
        else if (meta c).calcType = "properties" then (st, PipelineEnd.crashed)
        else if haveCrystalCode = false then (st, PipelineEnd.abortedInvalidCode)
        else if (meta c).optimizeStructure = some false ∧ st.optStructure = false then
          (st, PipelineEnd.crashed)
        else
          let res := outcome c
          let st1 : RunState :=
            { results := (c, res) :: st.results,
              statuses :=
                (c, if res.finishedOk then Status.succeeded else Status.failed) :: st.statuses,
              optStructure := st.optStructure }
          if (meta c).optimizeStructure = some true then
            if res.finishedOk then
              runSteps meta outcome haveCrystalCode rest { st1 with optStructure := true }
            else (st1, PipelineEnd.abortedOptimizationFailed)
          else runSteps meta outcome haveCrystalCode rest st1

/-- Observable status of a step after a run: entries absent from the status
table never left PENDING. -/
def finalStatus (r : RunState × PipelineEnd) (c : String) : Status :=
  (lookupKey r.1.statuses c).getD Status.pending

/-! ## Scheduler lemmas -/

lemma lookupKey_cons_ne {α : Type} (l : List (String × α)) (c s : String) (v : α)
    (h : c ≠ s) : lookupKey ((c, v) :: l) s = lookupKey l s := by
  simp [lookupKey, h]

/-- Processing a list of steps never touches the status of a step outside it. -/
lemma runSteps_lookup_of_not_mem (meta : String → StepMeta) (outcome : String → CalcOutcome)
    (hc : Bool) (s : String) :
    ∀ (steps : List String) (st : RunState), s ∉ steps →
      lookupKey (runSteps meta outcome hc steps st).1.statuses s = lookupKey st.statuses s := by
  intro steps
  induction steps with
  | nil => intro st _; rfl
  | cons c rest ih =>
    intro st hs
    have hcs : c ≠ s := by
      intro h
      exact hs (h ▸ List.mem_cons_self c rest)
    have hsr : s ∉ rest := fun h => hs (List.mem_cons_of_mem c h)
    rw [runSteps]
    cases hneed : isNeeded (meta c) st.results with
    | error e => rfl
    | ok b =>
      cases b with
      | false =>
        simp only
        rw [ih _ hsr, lookupKey_cons_ne _ _ _ _ hcs]
      | true =>
        simp only
        split
        · rfl
        · split
          · rfl
          · split
            · rfl
            · split
              · rfl
              · split
                · split
                  · rw [ih _ hsr, lookupKey_cons_ne _ _ _ _ hcs]
                  · simp only
                    rw [lookupKey_cons_ne _ _ _ _ hcs]
                · rw [ih _ hsr, lookupKey_cons_ne _ _ _ _ hcs]

/-- If the designated optimization step ends up FAILED, the run ended with
ERROR_OPTIMIZATION_FAILED at that step and every step after it in the list
kept the status it had on entry. -/
lemma runSteps_opt_failed (meta : String → StepMeta) (outcome : String → CalcOutcome)
    (hc : Bool) (optName : String)
    (hflag : (meta optName).optimizeStructure = some true) :
    ∀ (steps : List String) (st : RunState), steps.Nodup →
      lookupKey st.statuses optName = none →
      finalStatus (runSteps meta outcome hc steps st) optName = Status.failed →
      (runSteps meta outcome hc steps st).2 = PipelineEnd.abortedOptimizationFailed ∧
      ∃ l₁ l₂, steps = l₁ ++ optName :: l₂ ∧
        ∀ s ∈ l₂, lookupKey (runSteps meta outcome hc steps st).1.statuses s =
          lookupKey st.statuses s := by
  intro steps
  induction steps with
  | nil =>
    intro st _ hnone hfail
    exfalso
    simp [runSteps, finalStatus, hnone] at hfail
  | cons c rest ih =>
    intro st hnodup hnone hfail
    have hnodupR : rest.Nodup := (List.nodup_cons.mp hnodup).2
    have hcrest : c ∉ rest := (List.nodup_cons.mp hnodup).1
    cases hneed : isNeeded (meta c) st.results with
    | error e =>
      exfalso
      simp only [runSteps, hneed] at hfail
      simp [finalStatus, hnone] at hfail
    | ok b =>
      cases b with
      | false =>
        simp only [runSteps, hneed] at hfail ⊢
        by_cases hco : c = optName
        · exfalso
          subst hco
          rw [finalStatus,
            runSteps_lookup_of_not_mem meta outcome hc c rest _ hcrest] at hfail
          simp [lookupKey] at hfail
        · have hst' : lookupKey ((c, Status.skipped) :: st.statuses) optName = none := by
            rw [lookupKey_cons_ne _ _ _ _ hco]; exact hnone
          obtain ⟨habort, l₁, l₂, hsplit, hpend⟩ := ih _ hnodupR hst' hfail
          refine ⟨habort, c :: l₁, l₂, by rw [hsplit]; rfl, ?_⟩
          intro s hs
          have hsrest : s ∈ rest := by
            rw [hsplit]
            exact List.mem_append_right l₁ (List.mem_cons_of_mem optName hs)
          have hcs : c ≠ s := fun h => hcrest (h ▸ hsrest)
          rw [hpend s hs, lookupKey_cons_ne _ _ _ _ hcs]
      | true =>
        simp only [runSteps, hneed] at hfail ⊢
        by_cases h1 : (meta c).calcType ≠ "crystal" ∧ (meta c).calcType ≠ "properties"
        · exfalso
          simp only [if_pos h1] at hfail
          simp [finalStatus, hnone] at hfail
        · simp only [if_neg h1] at hfail ⊢
          by_cases h2 : (meta c).calcType = "properties"
          · exfalso
            simp only [if_pos h2] at hfail
            simp [finalStatus, hnone] at hfail
          · simp only [if_neg h2] at hfail ⊢
            by_cases h3 : hc = false
            · exfalso
              simp only [if_pos h3] at hfail
              simp [finalStatus, hnone] at hfail
            · simp only [if_neg h3] at hfail ⊢
              by_cases h4 : (meta c).optimizeStructure = some false ∧ st.optStructure = false
              · exfalso
                simp only [if_pos h4] at hfail
                simp [finalStatus, hnone] at hfail
              · simp only [if_neg h4] at hfail ⊢
                by_cases hco : c = optName
                · subst hco
                  simp only [if_pos hflag] at hfail ⊢
                  by_cases h6 : (outcome c).finishedOk
                  · exfalso
                    simp only [if_pos h6] at hfail
                    rw [finalStatus,
                      runSteps_lookup_of_not_mem meta outcome hc c rest _ hcrest] at hfail
                    simp [lookupKey] at hfail
                  · simp only [if_neg h6] at hfail ⊢
                    refine ⟨by simp, [], rest, rfl, ?_⟩
                    intro s hs
                    have hcs : c ≠ s := fun h => hcrest (h ▸ hs)
                    rw [lookupKey_cons_ne _ _ _ _ hcs]
                · have hst1 : lookupKey
                      ((c, if (outcome c).finishedOk then Status.succeeded else Status.failed)
                        :: st.statuses) optName = none := by
                    rw [lookupKey_cons_ne _ _ _ _ hco]; exact hnone
                  by_cases h5 : (meta c).optimizeStructure = some true
                  · simp only [if_pos h5] at hfail ⊢
                    by_cases h6 : (outcome c).finishedOk
                    · simp only [if_pos h6] at hfail ⊢
                      rw [if_pos h6] at hst1
                      obtain ⟨habort, l₁, l₂, hsplit, hpend⟩ := ih _ hnodupR hst1 hfail
                      refine ⟨habort, c :: l₁, l₂, by rw [hsplit]; rfl, ?_⟩
                      intro s hs
                      have hsrest : s ∈ rest := by
                        rw [hsplit]
                        exact List.mem_append_right l₁ (List.mem_cons_of_mem optName hs)
                      have hcs : c ≠ s := fun h => hcrest (h ▸ hsrest)
                      rw [hpend s hs, lookupKey_cons_ne _ _ _ _ hcs]
                    · exfalso
                      simp only [if_neg h6] at hfail
                      rw [finalStatus] at hfail
                      rw [lookupKey_cons_ne _ _ _ _ hco] at hfail
                      simp [hnone] at hfail
                  · simp only [if_neg h5] at hfail ⊢
                    obtain ⟨habort, l₁, l₂, hsplit, hpend⟩ := ih _ hnodupR hst1 hfail
                    refine ⟨habort, c :: l₁, l₂, by rw [hsplit]; rfl, ?_⟩
                    intro s hs
                    have hsrest : s ∈ rest := by
                      rw [hsplit]
                      exact List.mem_append_right l₁ (List.mem_cons_of_mem optName hs)
                    have hcs : c ≠ s := fun h => hcrest (h ▸ hsrest)
                    rw [hpend s hs, lookupKey_cons_ne _ _ _ _ hcs]

/-- C1: if the designated structural-optimization step's recorded result has
`finished_ok = false` (its final status is FAILED), the pipeline ends with
ERROR_OPTIMIZATION_FAILED and, for a step list sorted by priority with
distinct ids, every step of strictly greater priority than the optimization
step's never leaves PENDING. -/
theorem C1_optimization_failure_aborts (meta : String → StepMeta)
    (outcome : String → CalcOutcome) (hc : Bool) (steps : List String)
    (prio : String → Nat) (optName : String)
    (hsorted : steps.Pairwise (fun a b => prio a ≤ prio b))
    (hnodup : steps.Nodup)
    (hflag : (meta optName).optimizeStructure = some true)
    (hfail : finalStatus (runSteps meta outcome hc steps initState) optName = Status.failed) :
    (runSteps meta outcome hc steps initState).2 = PipelineEnd.abortedOptimizationFailed ∧
    ∀ s ∈ steps, prio optName < prio s →
      finalStatus (runSteps meta outcome hc steps initState) s = Status.pending := by
  obtain ⟨habort, l₁, l₂, hsplit, hpend⟩ :=
    runSteps_opt_failed meta outcome hc optName hflag steps initState hnodup rfl hfail
  refine ⟨habort, ?_⟩
  intro s hs hp
  have hs2 : s ∈ l₂ := by
    rw [hsplit] at hs hsorted
    rcases List.mem_append.mp hs with h | h
    · exfalso
      have := (List.pairwise_append.mp hsorted).2.2 s h optName (List.mem_cons_self _ _)
      omega
    · rcases List.mem_cons.mp h with h' | h'
      · exfalso
        rw [h'] at hp
        omega
      · exact h'
  rw [finalStatus, hpend s hs2]
  rfl

/-- Per-step metadata of the C1 witness pipeline: a designated optimization
step and one ordinary step. -/
def metaC1 : String → StepMeta := fun c =>
  if c = "optimize" then ⟨none, ⟨"", none, none⟩, some true, "crystal"⟩
  else ⟨none, ⟨"", none, none⟩, some false, "crystal"⟩

/-- Every submitted calculation of the C1 witness pipeline fails. -/
def outcomeC1 : String → CalcOutcome := fun _ => ⟨false, 0⟩

/-- Priorities of the C1 witness pipeline. -/
def prioC1 : String → Nat := fun c => if c = "optimize" then 1 else 10

/-- Witness for C1: a two-step pipeline whose optimization step fails ends
with ERROR_OPTIMIZATION_FAILED and leaves the second step PENDING. -/
theorem C1_optimization_failure_aborts_witness :
    (runSteps metaC1 outcomeC1 true ["optimize", "phonons"] initState).2 =
        PipelineEnd.abortedOptimizationFailed ∧
      ∀ s ∈ ["optimize", "phonons"], prioC1 "optimize" < prioC1 s →
        finalStatus (runSteps metaC1 outcomeC1 true ["optimize", "phonons"] initState) s =
          Status.pending :=
  C1_optimization_failure_aborts metaC1 outcomeC1 true ["optimize", "phonons"] prioC1
    "optimize" (by decide) (by decide) (by decide) (by decide)

/-- Metadata of the C4 counterexample pipeline: `calc2` carries
`need_calc2 = False` and also an `after: calc1` tag with
`finished_ok: True`. -/
def metaC4 : String → StepMeta := fun c =>
  if c = "calc2" then ⟨some false, ⟨"calc1", some true, none⟩, none, "crystal"⟩
  else ⟨none, ⟨"", none, none⟩, none, "crystal"⟩

/-- Every submitted calculation of the C4 counterexample pipeline succeeds. -/
def outcomeC4 : String → CalcOutcome := fun _ => ⟨true, 0⟩

/-- C4 counterexample: a step whose needed-flag is false is NOT always
skipped — here `calc2` has `need_calc2 = False`, yet because its `after`
dependency on the succeeded `calc1` passes, `is_needed` returns True and the
step runs to SUCCEEDED, so the claim "marked SKIPPED and never runs,
regardless of any after declaration" fails on the code. -/
theorem C4_need_flag_counterexample :
    (metaC4 "calc2").needFlag = some false ∧
    finalStatus (runSteps metaC4 outcomeC4 true ["calc1", "calc2"] initState) "calc2" =
      Status.succeeded ∧
    (runSteps metaC4 outcomeC4 true ["calc1", "calc2"] initState).2 = PipelineEnd.done := by
  decide

/-- C4 (amended): a step whose needed-flag is false is marked SKIPPED when it
declares no `after` check (`finished_ok` unset); but when it declares an
`after` check with `finished_ok = true` and the referenced step has a
recorded successful result, the dependency check overrides the flag and the
step runs. -/
theorem C4_need_flag_amended (m : StepMeta) (results : List (String × CalcOutcome))
    (hflag : m.needFlag = some false) :
    (m.after.finishedOk = none → isNeeded m results = Except.ok false) ∧
    (∀ r, m.after.finishedOk = some true → lookupKey results m.after.calcName = some r →
      r.finishedOk = true → isNeeded m results = Except.ok true) := by
  constructor
  · intro h
    simp [isNeeded, h, hflag]
  · intro r h hr hfin
    simp [isNeeded, h, hr, hfin]

/-- A step with a false needed-flag and a passing dependency check. -/
def metaC4w : StepMeta := ⟨some false, ⟨"base_calc", some true, none⟩, none, "crystal"⟩

/-- Context results for the C4 witness: the referenced step succeeded. -/
def resultsC4w : List (String × CalcOutcome) := [("base_calc", ⟨true, 0⟩)]

/-- Witness for C4 (amended): with the need flag false but a passing
dependency check, `is_needed` returns True. -/
theorem C4_need_flag_amended_witness :
    isNeeded metaC4w resultsC4w = Except.ok true :=
  (C4_need_flag_amended metaC4w resultsC4w rfl).2 ⟨true, 0⟩ rfl (by decide) rfl

/-- Metadata of the C6 counterexample pipeline: `stepx` is skipped by its
need flag; `stepy` depends on `stepx` with `finished_ok: True`. -/
def metaC6 : String → StepMeta := fun c =>
  if c = "stepy" then ⟨none, ⟨"stepx", some true, none⟩, none, "crystal"⟩
  else ⟨some false, ⟨"", none, none⟩, none, "crystal"⟩

/-- Outcome oracle of the C6 counterexample pipeline (never consulted for
`stepx`, which is skipped). -/
def outcomeC6 : String → CalcOutcome := fun _ => ⟨true, 0⟩

/-- C6 counterexample: the claim says a step whose dependency `X` did not
reach SUCCEEDED "is marked SKIPPED and never runs" — but when `X` was
skipped and has no recorded result, `is_needed` evaluates
`self.ctx.get(X).is_finished_ok` on `None` and the workchain crashes with an
`AttributeError`, leaving the dependent step PENDING, not SKIPPED. -/
theorem C6_dependency_counterexample :
    (metaC6 "stepy").after.finishedOk = some true ∧
    finalStatus (runSteps metaC6 outcomeC6 true ["stepx", "stepy"] initState) "stepx" =
      Status.skipped ∧
    finalStatus (runSteps metaC6 outcomeC6 true ["stepx", "stepy"] initState) "stepy" =
      Status.pending ∧
    (runSteps metaC6 outcomeC6 true ["stepx", "stepy"] initState).2 = PipelineEnd.crashed := by
  decide

/-- C6 (amended): for a step declaring a dependency with
`required_finished_ok = true`, when the referenced step has a recorded
result, the dependency check passes exactly when that result finished ok
(so the step runs iff X SUCCEEDED); when the referenced step has no recorded
result, `is_needed` raises instead of skipping. -/
theorem C6_dependency_amended (m : StepMeta) (results : List (String × CalcOutcome))
    (h : m.after.finishedOk = some true) :
    (∀ r, lookupKey results m.after.calcName = some r →
      isNeeded m results = Except.ok r.finishedOk) ∧
    (lookupKey results m.after.calcName = none → isNeeded m results = Except.error ()) := by
  constructor
  · intro r hr
    cases hf : r.finishedOk
    · simp [isNeeded, h, hr, hf]
    · simp [isNeeded, h, hr, hf]
  · intro hr
    simp [isNeeded, h, hr]

/-- A step depending on `dep_calc` with `finished_ok: True`. -/
def metaC6w : StepMeta := ⟨none, ⟨"dep_calc", some true, none⟩, none, "crystal"⟩

/-- Context results for the C6 witness: the referenced step ran and failed. -/
def resultsC6w : List (String × CalcOutcome) := [("dep_calc", ⟨false, 5⟩)]

/-- Witness for C6 (amended): a failed dependency yields False (skip), and a
missing dependency result yields the AttributeError crash. -/
theorem C6_dependency_amended_witness :
    isNeeded metaC6w resultsC6w = Except.ok false ∧
      isNeeded metaC6w [] = Except.error () :=
  ⟨(C6_dependency_amended metaC6w resultsC6w rfl).1 ⟨false, 5⟩ (by decide),
   (C6_dependency_amended metaC6w [] rfl).2 rfl⟩

/-! ## Spec builder: `init_inputs` / `validate_inputs` (crystal.py lines 66-172) -/

/-- The required top-level configuration keys (crystal.py line 169). -/
def validTopKeys : List String := ["codes", "options", "basis_family", "default", "calculations"]

/-- `set(a) == set(b)` on key lists. -/
def sameKeySet (a b : List String) : Bool := a.all b.contains && b.all a.contains

/-- Errors raised while building the calculation queue: the INPUT_ERROR exit
code, or a Python `KeyError` from `calculations[after]` with an undeclared
reference. -/
inductive BuildError where
  | inputError | keyError
deriving DecidableEq, Repr

/-- Embedding of `validate_inputs` (crystal.py lines 168-172): a mismatch
with the required key set produces the INPUT_ERROR exit code as its return
value. -/
def validate_inputs (keys : List String) : Option BuildError :=
  if sameKeySet keys validTopKeys then none else some BuildError.inputError

/-- `dict(zip(keys, [10 * i for i in range(len(keys))]))`, with `i` starting
at `k`: each declared step paired with ten times its declaration index. -/
def basePrioAux : List String → Nat → List (String × Nat)
  | [], _ => []
  | n :: rest, i => (n, 10 * i) :: basePrioAux rest (i + 1)

/-- Base priorities: declaration index times ten (crystal.py line 107). -/
def basePriorities (names : List String) : List (String × Nat) := basePrioAux names 0

/-- Dict value update `d[k] = v`, preserving insertion order. -/
def setVal (l : List (String × Nat)) (k : String) (v : Nat) : List (String × Nat) :=
  l.map (fun p => if p.1 = k then (p.1, v) else p)

/-- The `for c in calculations` loop applying
`calculations[c] = calculations[after] + 1` (crystal.py lines 117-120); a
reference to an undeclared step is a `KeyError`. -/
def applyAfterTags (after : String → Option String) :
    List String → List (String × Nat) → Except BuildError (List (String × Nat))
  | [], l => Except.ok l
  | c :: rest, l =>
    match after c with
    | none => applyAfterTags after rest l
    | some a =>
      match lookupKey l a with
      | none => Except.error BuildError.keyError
      | some v => applyAfterTags after rest (setVal l c (v + 1))

/-- Priority assignment of `init_inputs` (crystal.py lines 106-120): base
priorities, then the `optimize_structure` designation forces priority 1
(INPUT_ERROR if it names an undeclared step), then the after-tag loop. -/
def init_priorities (names : List String) (optimize : Option String)
    (after : String → Option String) : Except BuildError (List (String × Nat)) :=
  let base := basePriorities names
  match optimize with
  | none => applyAfterTags after names base
  | some o =>
    if (lookupKey base o).isSome then applyAfterTags after names (setVal base o 1)
    else Except.error BuildError.inputError

/-- One step of a stable insertion sort: the new element goes before the
first strictly greater priority, after equal ones — the order produced by
Python's stable `sorted`. -/
def insertPair (x : String × Nat) : List (String × Nat) → List (String × Nat)
  | [] => [x]
  | y :: ys => if x.2 < y.2 then x :: y :: ys else y :: insertPair x ys

/-- Stable sort by priority, modelling
`sorted(calculations, key=calculations.get)` (crystal.py line 121). -/
def sortPairs : List (String × Nat) → List (String × Nat)
  | [] => []
  | x :: xs => insertPair x (sortPairs xs)

/-- The priority-ordered execution queue `self.ctx.calculations`. -/
def execution_order (names : List String) (optimize : Option String)
    (after : String → Option String) : Except BuildError (List String) :=
  (init_priorities names optimize after).map (fun l => (sortPairs l).map (fun p => p.1))

/-- `init_inputs` followed by the scheduling loop.  NB the call
`self.validate_inputs(options)` at crystal.py line 100 discards the returned
exit code, which is mirrored by the discarded `let` binding here. -/
def init_inputs_run (keys : List String) (names : List String) (optimize : Option String)
    (after : String → Option String) (meta : String → StepMeta)
    (outcome : String → CalcOutcome) (haveCrystalCode : Bool) : RunState × PipelineEnd :=
  let _ := validate_inputs keys
  match execution_order names optimize after with
  | Except.error _ => (initState, PipelineEnd.abortedInputError)
  | Except.ok order => runSteps meta outcome haveCrystalCode order initState

/-- Top-level keys of the C5 configuration: the five required keys plus one
stray key, so `set(options.keys()) != set(valid_keys)`. -/
def keysC5 : List String :=
  ["codes", "options", "basis_family", "default", "calculations", "extra_key"]

/-- Metadata of the C5 pipeline's single declared calculation. -/
def metaC5 : String → StepMeta := fun _ => ⟨none, ⟨"", none, none⟩, none, "crystal"⟩

/-- The single calculation of the C5 pipeline succeeds when submitted. -/
def outcomeC5 : String → CalcOutcome := fun _ => ⟨true, 0⟩

/-- C5 (code bug evaluation): with a stray sixth top-level key,
`validate_inputs` does return the INPUT_ERROR exit code — but `init_inputs`
discards that return value (crystal.py line 100), so the pipeline proceeds,
submits its calculation and finishes normally, contradicting "a fatal
configuration error is raised before any step is submitted, and no
calculation runs". -/
theorem C5_validation_discarded :
    validate_inputs keysC5 = some BuildError.inputError ∧
    (init_inputs_run keysC5 ["main_calc"] none (fun _ => none) metaC5 outcomeC5 true).2 =
      PipelineEnd.done ∧
    finalStatus (init_inputs_run keysC5 ["main_calc"] none (fun _ => none) metaC5 outcomeC5 true)
      "main_calc" = Status.succeeded := by
  decide

/-- C3 counterexample: in the pipeline declaring `calcA` then `calcB` with
`optimize_structure: calcB`, the designated step gets priority 1 as claimed,
but `calcA` keeps base priority `0 × 10 = 0`, so the optimization step does
NOT run before every other step: the execution order is `[calcA, calcB]`. -/
theorem C3_priority_counterexample :
    init_priorities ["calcA", "calcB"] (some "calcB") (fun _ => none) =
      Except.ok [("calcA", 0), ("calcB", 1)] ∧
    execution_order ["calcA", "calcB"] (some "calcB") (fun _ => none) =
      Except.ok ["calcA", "calcB"] := by
  exact ⟨rfl, rfl⟩

lemma lookupKey_some_mem {α : Type} {l : List (String × α)} {k : String} {v : α}
    (h : lookupKey l k = some v) : (k, v) ∈ l := by
  induction l with
  | nil => simp [lookupKey] at h
  | cons p rest ih =>
    rw [lookupKey] at h
    by_cases hp : p.1 = k
    · rw [if_pos hp] at h
      have : p = (k, v) := by
        cases p
        simp_all
      exact this ▸ List.mem_cons_self _ _
    · rw [if_neg hp] at h
      exact List.mem_cons_of_mem _ (ih h)

lemma lookupKey_setVal_self {l : List (String × Nat)} {k : String} {v : Nat}
    (h : (lookupKey l k).isSome) : lookupKey (setVal l k v) k = some v := by
  induction l with
  | nil => simp [lookupKey] at h
  | cons p rest ih =>
    by_cases hp : p.1 = k
    · simp [setVal, lookupKey, hp]
    · rw [lookupKey, if_neg hp] at h
      simp only [setVal, List.map_cons, if_neg hp]
      rw [lookupKey, if_neg hp]
      exact ih h

lemma lookupKey_setVal_ne {l : List (String × Nat)} {k x : String} {v : Nat}
    (h : x ≠ k) : lookupKey (setVal l k v) x = lookupKey l x := by
  induction l with
  | nil => rfl
  | cons p rest ih =>
    by_cases hp : p.1 = k
    · simp only [setVal, List.map_cons, if_pos hp]
      rw [lookupKey, lookupKey]
      have hne : ¬ p.1 = x := by
        rw [hp]
        exact fun hh => h hh.symm
      rw [if_neg hne, if_neg (by rw [hp]; exact fun hh => h hh.symm : ¬ p.1 = x)]
      exact ih
    · simp only [setVal, List.map_cons, if_neg hp]
      rw [lookupKey, lookupKey]
      by_cases hx : p.1 = x
      · rw [if_pos hx, if_pos hx]
      · rw [if_neg hx, if_neg hx]
        exact ih

lemma lookupKey_setVal_self_none {l : List (String × Nat)} {k : String} {v : Nat}
    (h : lookupKey l k = none) : lookupKey (setVal l k v) k = none := by
  induction l with
  | nil => rfl
  | cons p rest ih =>
    rw [lookupKey] at h
    by_cases hp : p.1 = k
    · rw [if_pos hp] at h
      cases h
    · rw [if_neg hp] at h
      simp only [setVal, List.map_cons, if_neg hp]
      rw [lookupKey, if_neg hp]
      exact ih h

lemma lookupKey_setVal_isSome {l : List (String × Nat)} {k x : String} {v : Nat} :
    (lookupKey (setVal l k v) x).isSome = (lookupKey l x).isSome := by
  by_cases h : x = k
  · subst h
    cases hl : lookupKey l x with
    | none => rw [lookupKey_setVal_self_none hl]
    | some w =>
      rw [lookupKey_setVal_self (by rw [hl]; rfl)]
      rfl
  · rw [lookupKey_setVal_ne h]

lemma basePrioAux_lookup (names : List String) :
    ∀ (k : Nat), names.Nodup → ∀ i (hi : i < names.length),
      lookupKey (basePrioAux names k) names[i] = some (10 * (k + i)) := by
  induction names with
  | nil =>
    intro k _ i hi
    simp at hi
  | cons n rest ih =>
    intro k hnodup i hi
    cases i with
    | zero => simp [basePrioAux, lookupKey]
    | succ j =>
      have hn : n ∉ rest := (List.nodup_cons.mp hnodup).1
      have hj : j < rest.length := by simpa using hi
      have hne : ¬ n = rest[j] := fun h => hn (h ▸ List.getElem_mem hj)
      rw [List.getElem_cons_succ, basePrioAux, lookupKey, if_neg hne,
        ih (k + 1) (List.nodup_cons.mp hnodup).2 j hj]
      congr 1
      omega

lemma basePrioAux_isSome_of_mem {names : List String} {c : String} (k : Nat)
    (h : c ∈ names) : (lookupKey (basePrioAux names k) c).isSome := by
  induction names generalizing k with
  | nil => cases h
  | cons n rest ih =>
    rw [basePrioAux, lookupKey]
    by_cases hn : n = c
    · rw [if_pos hn]
      rfl
    · rw [if_neg hn]
      exact ih (k + 1) (List.mem_of_ne_of_mem (fun hh => hn hh.symm) h)

lemma basePrioAux_mem {names : List String} {k : Nat} {p : String × Nat}
    (h : p ∈ basePrioAux names k) : p.1 ∈ names ∧ 10 * k ≤ p.2 := by
  induction names generalizing k with
  | nil => cases h
  | cons n rest ih =>
    rw [basePrioAux] at h
    rcases List.mem_cons.mp h with h1 | h1
    · rw [h1]
      exact ⟨List.mem_cons_self _ _, le_refl _⟩
    · obtain ⟨hm, hv⟩ := ih h1
      refine ⟨List.mem_cons_of_mem _ hm, ?_⟩
      omega

lemma applyAfterTags_unmodified (after : String → Option String) (x : String) :
    ∀ (names : List String) (l0 l : List (String × Nat)),
      applyAfterTags after names l0 = Except.ok l →
      (after x = none ∨ x ∉ names) →
      lookupKey l x = lookupKey l0 x := by
  intro names
  induction names with
  | nil =>
    intro l0 l hok _
    cases hok
    rfl
  | cons c rest ih =>
    intro l0 l hok hx
    have hx2 : after x = none ∨ x ∉ rest := by
      rcases hx with h | h
      · exact Or.inl h
      · exact Or.inr (fun hh => h (List.mem_cons_of_mem c hh))
    rw [applyAfterTags] at hok
    cases hac : after c with
    | none =>
      rw [hac] at hok
      exact ih l0 l hok hx2
    | some a =>
      simp only [hac] at hok
      cases hla : lookupKey l0 a with
      | none =>
        simp only [hla] at hok
        cases hok
      | some v =>
        simp only [hla] at hok
        have hxc : x ≠ c := by
          rcases hx with h | h
          · intro hh
            rw [hh, hac] at h
            cases h
          · exact fun hh => h (hh ▸ List.mem_cons_self c rest)
        rw [ih _ l hok hx2, lookupKey_setVal_ne hxc]

lemma applyAfterTags_sets (after : String → Option String) (c a : String)
    (hca : after c = some a) (hano : after a = none) :
    ∀ (names : List String) (l0 l : List (String × Nat)), names.Nodup → c ∈ names →
      (lookupKey l0 c).isSome →
      applyAfterTags after names l0 = Except.ok l →
      ∃ v, lookupKey l a = some v ∧ lookupKey l c = some (v + 1) := by
  intro names
  induction names with
  | nil =>
    intro l0 l _ hmem _ _
    cases hmem
  | cons d rest ih =>
    intro l0 l hnodup hmem hsome hok
    have hnodupR : rest.Nodup := (List.nodup_cons.mp hnodup).2
    have hdrest : d ∉ rest := (List.nodup_cons.mp hnodup).1
    rw [applyAfterTags] at hok
    by_cases hdc : d = c
    · subst hdc
      simp only [hca] at hok
      cases hla : lookupKey l0 a with
      | none =>
        simp only [hla] at hok
        cases hok
      | some v =>
        simp only [hla] at hok
        have hac2 : a ≠ d := by
          intro h
          rw [h, hca] at hano
          cases hano
        have h1 : lookupKey l d = lookupKey (setVal l0 d (v + 1)) d :=
          applyAfterTags_unmodified after d rest _ l hok (Or.inr hdrest)
        have h3 : lookupKey l a = lookupKey (setVal l0 d (v + 1)) a :=
          applyAfterTags_unmodified after a rest _ l hok (Or.inl hano)
        refine ⟨v, ?_, ?_⟩
        · rw [h3, lookupKey_setVal_ne hac2, hla]
        · rw [h1, lookupKey_setVal_self hsome]
    · have hcr : c ∈ rest := List.mem_of_ne_of_mem (fun hh => hdc hh.symm) hmem
      cases had : after d with
      | none =>
        rw [had] at hok
        exact ih l0 l hnodupR hcr hsome hok
      | some b =>
        simp only [had] at hok
        cases hlb : lookupKey l0 b with
        | none =>
          simp only [hlb] at hok
          cases hok
        | some w =>
          simp only [hlb] at hok
          have hsome2 : (lookupKey (setVal l0 d (w + 1)) c).isSome := by
            rw [lookupKey_setVal_isSome]
            exact hsome
          exact ih _ l hnodupR hcr hsome2 hok

/-- Invariant for the head-runs-first argument: the optimization step keeps
priority 1, every other step keeps priority at least 2. -/
def PrioInv (o : String) (p : String × Nat) : Prop :=
  (p.1 = o → p.2 = 1) ∧ (p.1 ≠ o → 2 ≤ p.2)

lemma applyAfterTags_inv (after : String → Option String) (o : String)
    (ho : after o = none) :
    ∀ (names : List String) (l0 l : List (String × Nat)),
      (∀ p ∈ l0, PrioInv o p) →
      applyAfterTags after names l0 = Except.ok l → ∀ p ∈ l, PrioInv o p := by
  intro names
  induction names with
  | nil =>
    intro l0 l hinv hok
    cases hok
    exact hinv
  | cons c rest ih =>
    intro l0 l hinv hok
    rw [applyAfterTags] at hok
    cases hac : after c with
    | none =>
      rw [hac] at hok
      exact ih l0 l hinv hok
    | some a =>
      simp only [hac] at hok
      cases hla : lookupKey l0 a with
      | none =>
        simp only [hla] at hok
        cases hok
      | some v =>
        simp only [hla] at hok
        have hco : c ≠ o := by
          intro h
          rw [h, ho] at hac
          cases hac
        have hv1 : 1 ≤ v := by
          have hmem := lookupKey_some_mem hla
          have := hinv _ hmem
          rcases this with ⟨h1, h2⟩
          by_cases hao : a = o
          · have := h1 hao
            omega
          · have := h2 hao
            omega
        refine ih _ l ?_ hok
        intro p hp
        obtain ⟨q, hq, hpq⟩ := List.mem_map.mp hp
        by_cases hqc : q.1 = c
        · rw [if_pos hqc] at hpq
          rw [← hpq]
          refine ⟨fun h => absurd (hqc ▸ h) hco, fun _ => by omega⟩
        · rw [if_neg hqc] at hpq
          rw [← hpq]
          exact hinv q hq

lemma mem_insertPair {x y : String × Nat} :
    ∀ {l : List (String × Nat)}, y ∈ insertPair x l → y = x ∨ y ∈ l := by
  intro l
  induction l with
  | nil =>
    intro h
    rw [insertPair] at h
    rcases List.mem_singleton.mp h with h
    exact Or.inl h
  | cons z zs ih =>
    intro h
    rw [insertPair] at h
    by_cases hlt : x.2 < z.2
    · rw [if_pos hlt] at h
      rcases List.mem_cons.mp h with h1 | h1
      · exact Or.inl h1
      · exact Or.inr h1
    · rw [if_neg hlt] at h
      rcases List.mem_cons.mp h with h1 | h1
      · exact Or.inr (h1 ▸ List.mem_cons_self z zs)
      · rcases ih h1 with h2 | h2
        · exact Or.inl h2
        · exact Or.inr (List.mem_cons_of_mem z h2)

lemma mem_sortPairs {y : String × Nat} :
    ∀ {l : List (String × Nat)}, y ∈ sortPairs l → y ∈ l := by
  intro l
  induction l with
  | nil =>
    intro h
    cases h
  | cons z zs ih =>
    intro h
    rw [sortPairs] at h
    rcases mem_insertPair h with h1 | h1
    · exact h1 ▸ List.mem_cons_self z zs
    · exact List.mem_cons_of_mem z (ih h1)

lemma insertPair_head_of_min {x : String × Nat} :
    ∀ {s : List (String × Nat)}, (∀ y ∈ s, y ≠ x → x.2 < y.2) →
      ∃ t, insertPair x s = x :: t := by
  intro s
  cases s with
  | nil => exact fun _ => ⟨[], rfl⟩
  | cons y ys =>
    intro hmin
    by_cases hlt : x.2 < y.2
    · exact ⟨y :: ys, by rw [insertPair, if_pos hlt]⟩
    · have hyx : y = x := by
        by_contra hne
        exact hlt (hmin y (List.mem_cons_self y ys) hne)
      subst hyx
      exact ⟨insertPair y ys, by rw [insertPair, if_neg hlt]⟩

lemma sortPairs_min_head {x : String × Nat} :
    ∀ {l : List (String × Nat)}, x ∈ l → (∀ y ∈ l, y ≠ x → x.2 < y.2) →
      ∃ t, sortPairs l = x :: t := by
  intro l
  induction l with
  | nil =>
    intro hx _
    cases hx
  | cons z zs ih =>
    intro hx hmin
    rw [sortPairs]
    by_cases hzx : z = x
    · subst hzx
      exact insertPair_head_of_min (fun y hy => hmin y (List.mem_cons_of_mem z (mem_sortPairs hy)))
    · have hxzs : x ∈ zs := List.mem_of_ne_of_mem (fun h => hzx h.symm) hx
      obtain ⟨t, ht⟩ := ih hxzs (fun y hy hne => hmin y (List.mem_cons_of_mem z hy) hne)
      rw [ht, insertPair]
      have hzb : ¬ z.2 < x.2 := by
        have := hmin z (List.mem_cons_self z zs) hzx
        omega
      rw [if_neg hzb]
      exact ⟨insertPair z t, rfl⟩

/-- C3 (amended): a step that is neither the `optimize_structure` designee
nor carries an `after` tag keeps base priority ten times its zero-based
declaration index; the designated step, when it carries no `after` tag,
keeps the priority 1 forced on it; a step with an `after` tag referencing a
step that itself has no `after` tag gets that step's final priority plus
one.  The designated step is NOT guaranteed to run before every other step
(the counterexample: a first-declared step keeps priority 0 and runs
earlier); what is proven here is the sufficient condition that when the
designated step is first-declared and carries no `after` tag, it heads the
execution order. -/
theorem C3_priority_amended (names : List String) (optimize : String)
    (after : String → Option String) (l : List (String × Nat))
    (hnodup : names.Nodup)
    (hok : init_priorities names (some optimize) after = Except.ok l) :
    (∀ i (hi : i < names.length), names[i] ≠ optimize → after names[i] = none →
        lookupKey l names[i] = some (10 * i)) ∧
    (optimize ∈ names → after optimize = none → lookupKey l optimize = some 1) ∧
    (∀ c a, after c = some a → after a = none → c ∈ names →
        ∃ v, lookupKey l a = some v ∧ lookupKey l c = some (v + 1)) ∧
    (∀ rest, names = optimize :: rest → after optimize = none →
        ∃ t, execution_order names (some optimize) after =
          Except.ok (optimize :: t)) := by
  have hok0 := hok
  rw [init_priorities] at hok
  by_cases hsome : (lookupKey (basePriorities names) optimize).isSome
  case neg =>
    rw [if_neg hsome] at hok
    cases hok
  case pos =>
  rw [if_pos hsome] at hok
  refine ⟨?_, ?_, ?_, ?_⟩
  · intro i hi hne hafter
    rw [applyAfterTags_unmodified after names[i] names _ l hok (Or.inl hafter),
      lookupKey_setVal_ne hne, basePriorities,
      basePrioAux_lookup names 0 hnodup i hi]
    congr 1
    omega
  · intro hmem hafter
    rw [applyAfterTags_unmodified after optimize names _ l hok (Or.inl hafter),
      lookupKey_setVal_self hsome]
  · intro c a hca hano hc
    have hsome2 : (lookupKey (setVal (basePriorities names) optimize 1) c).isSome := by
      rw [lookupKey_setVal_isSome]
      exact basePrioAux_isSome_of_mem 0 hc
    exact applyAfterTags_sets after c a hca hano names _ l hnodup hc hsome2 hok
  · intro rest hnr hafter
    have hmem1 : lookupKey l optimize = some 1 := by
      rw [applyAfterTags_unmodified after optimize names _ l hok (Or.inl hafter),
        lookupKey_setVal_self hsome]
    have hpmem : (optimize, 1) ∈ l := lookupKey_some_mem hmem1
    have hinv : ∀ p ∈ l, PrioInv optimize p := by
      refine applyAfterTags_inv after optimize hafter names _ l ?_ hok
      subst hnr
      intro p hp
      have hl1 : setVal (basePriorities (optimize :: rest)) optimize 1 =
          (optimize, 1) :: setVal (basePrioAux rest 1) optimize 1 := by
        simp [basePriorities, basePrioAux, setVal]
      rw [hl1, setVal] at hp
      rcases List.mem_cons.mp hp with h1 | h1
      · rw [h1]
        exact ⟨fun _ => rfl, fun h => absurd rfl h⟩
      · obtain ⟨q, hq, hpq⟩ := List.mem_map.mp h1
        obtain ⟨hqmem, hqval⟩ := basePrioAux_mem hq
        have hqo : q.1 ≠ optimize := by
          intro h
          exact (List.nodup_cons.mp hnodup).1 (h ▸ hqmem)
        rw [if_neg hqo] at hpq
        rw [← hpq]
        exact ⟨fun h => absurd h hqo, fun _ => by omega⟩
    have hminstrict : ∀ y ∈ l, y ≠ (optimize, 1) → (optimize, 1).2 < y.2 := by
      intro y hy hne
      obtain ⟨h1, h2⟩ := hinv y hy
      by_cases hyo : y.1 = optimize
      · exfalso
        apply hne
        have := h1 hyo
        calc y = (y.1, y.2) := rfl
          _ = (optimize, 1) := by rw [hyo, this]
      · have := h2 hyo
        simp only
        omega
    obtain ⟨t, ht⟩ := sortPairs_min_head hpmem hminstrict
    refine ⟨t.map (fun p => p.1), ?_⟩
    rw [execution_order, hok0]
    simp only [Except.map]
    rw [ht]
    rfl

/-- Declared steps of the C3 witness pipeline. -/
def namesC3 : List String := ["optimize_step", "phonons_step", "elastic_step"]

/-- After tags of the C3 witness pipeline. -/
def afterC3 : String → Option String := fun c =>
  if c = "elastic_step" then some "phonons_step" else none

/-- The priority table init_inputs computes for the C3 witness pipeline. -/
def lC3 : List (String × Nat) :=
  [("optimize_step", 1), ("phonons_step", 10), ("elastic_step", 11)]

/-- Witness for C3 (amended) on a three-step pipeline with an `after` tag:
priorities (1, 10, 11) and the designated first-declared step runs first. -/
theorem C3_priority_amended_witness :
    lookupKey lC3 "phonons_step" = some 10 ∧
    lookupKey lC3 "optimize_step" = some 1 ∧
    (∃ v, lookupKey lC3 "phonons_step" = some v ∧
      lookupKey lC3 "elastic_step" = some (v + 1)) ∧
    ∃ t, execution_order namesC3 (some "optimize_step") afterC3 =
      Except.ok ("optimize_step" :: t) := by
  obtain ⟨h1, h2, h3, h4⟩ :=
    C3_priority_amended namesC3 "optimize_step" afterC3 lC3 (by decide) rfl
  refine ⟨?_, h2 (by decide) rfl, ?_, h4 ["phonons_step", "elastic_step"] rfl rfl⟩
  · exact h1 1 (by decide) (by decide) rfl
  · exact h3 "elastic_step" "phonons_step" rfl rfl (by decide)


/-! ## Geometry retrieval: `MPDSStructureWorkChain.get_geometry`
(mpds_aiida/workflows/mpds.py lines 33-95)

On `APIError` with code 429 the source sleeps a random duration from
`[2, 4, 8, 16, 32]` and retries by calling `self.get_geometry()` again, with
no attempt counter.  The embedding exposes that recursion through a fuel
argument: a result of `none` at fuel `n` means the call has not returned
after `n` nested invocations. -/

/-- What one MPDS request can come back with, for the slice of
`get_geometry` that decides between retrying and surfacing an error. -/
inductive MpdsResponse where
  | ok : MpdsResponse
  | apiError (code : Nat) : MpdsResponse
  | serverNotFound : MpdsResponse
deriving DecidableEq, Repr

/-- How `get_geometry` can return: a structure node or one of the exit codes
501 ERROR_NO_MPDS_API_KEY, 502 ERROR_API_ERROR, 504 ERROR_SERVER_NOT_FOUND
(503 ERROR_NO_HITS arises later, outside the retry logic modelled here). -/
inductive GeomOutcome where
  | structureFound | errNoApiKey | errApiError | errServerNotFound
deriving DecidableEq, Repr

/-- Embedding of `get_geometry`: check the API key, issue the request for
the current attempt, and on a 429 rate-limit signal recurse onto the next
attempt; any other `APIError` surfaces ERROR_API_ERROR at once.  `fuel`
bounds the observed recursion depth; `none` means still recursing. -/
def get_geometry (hasKey : Bool) (resp : Nat → MpdsResponse) :
    Nat → Nat → Option GeomOutcome
  | _, 0 => none
  | attempt, fuel + 1 =>
    if hasKey = false then some GeomOutcome.errNoApiKey
    else
      match resp attempt with
      | MpdsResponse.ok => some GeomOutcome.structureFound
      | MpdsResponse.apiError code =>
        if code = 429 then get_geometry hasKey resp (attempt + 1) fuel
        else some GeomOutcome.errApiError
      | MpdsResponse.serverNotFound => some GeomOutcome.errServerNotFound

/-- A server that answers every request with API error 429. -/
def allRateLimited : Nat → MpdsResponse := fun _ => MpdsResponse.apiError 429

/-- Under persistent rate limiting, `get_geometry` never returns within any
recursion budget: there is no fixed attempt count after which the typed
api-error is surfaced. -/
def retriesForeverOn429 : Prop :=
  ∀ attempt fuel, get_geometry true allRateLimited attempt fuel = none

/-- C9 counterexample: against a persistently rate-limiting server the
retry recursion of `get_geometry` has no attempt bound and never surfaces
ERROR_API_ERROR — the claimed "at most a fixed number of attempts, after
which the typed api-error is surfaced" fails on the code. -/
theorem C9_unbounded_retry_counterexample : retriesForeverOn429 := by
  intro attempt fuel
  induction fuel generalizing attempt with
  | zero => rfl
  | succ n ih =>
    rw [get_geometry]
    simp only [allRateLimited]
    simp only [if_neg (by decide : ¬ true = false), if_pos rfl]
    exact ih (attempt + 1)

/-- C9 (amended): on a 429 rate-limit signal the fetch retries by an
unbounded recursive self-call (after a randomized sleep drawn from
`[2, 4, 8, 16, 32]` seconds, not modelled); a non-429 API error surfaces the
typed api-error immediately.  No attempt cap exists, so the loop does not
terminate while the rate limit persists. -/
theorem C9_retry_amended (resp : Nat → MpdsResponse) (attempt fuel : Nat) :
    (resp attempt = MpdsResponse.apiError 429 →
      get_geometry true resp attempt (fuel + 1) =
        get_geometry true resp (attempt + 1) fuel) ∧
    (∀ code, resp attempt = MpdsResponse.apiError code → code ≠ 429 →
      get_geometry true resp attempt (fuel + 1) = some GeomOutcome.errApiError) := by
  constructor
  · intro h
    rw [get_geometry]
    simp [h]
  · intro code h hne
    rw [get_geometry]
    simp [h, hne]

/-- A server that rate-limits the first request and then reports a
non-429 API error. -/
def respC9 : Nat → MpdsResponse := fun n =>
  if n = 0 then MpdsResponse.apiError 429 else MpdsResponse.apiError 500

/-- Witness for C9 (amended): one retry after a 429, then error 500
surfaces ERROR_API_ERROR. -/
theorem C9_retry_amended_witness :
    get_geometry true respC9 0 5 = get_geometry true respC9 1 4 ∧
    get_geometry true respC9 1 4 = some GeomOutcome.errApiError :=
  ⟨(C9_retry_amended respC9 0 4).1 rfl,
   (C9_retry_amended respC9 1 3).2 500 rfl (by decide)⟩

end MpdsAiida
